import Mathlib

/-!
Verification of the HTTP bridge pair of the emergent-primitives repository:
the webhook receiver (src/primitives/http-source/src/main.rs) and the
outbound dispatcher (src/primitives/http-sink/src/main.rs).

The Rust code is shallowly embedded: byte strings are `List Nat` (each entry
a byte value), text is `List Char`, JSON values are the inductive `JValue`,
and the two request handlers become pure Lean functions.  The HMAC-SHA256
primitive lives in an external crate, so it is treated as a parameter
`hm : List Nat → List Nat → List Nat` (key → message → 32-byte tag); every
theorem that needs it quantifies over an arbitrary function with that tag
shape, which in particular covers the real HMAC-SHA256.
-/

/-! ## Hex encoding and decoding (models the `hex` crate) -/

/-- Value of one hex digit character, as in `hex::decode`: accepts `0-9`,
`a-f` and `A-F`. -/
def hexDigit? (c : Char) : Option Nat :=
  if '0' ≤ c ∧ c ≤ '9' then some (c.toNat - 48)
  else if 'a' ≤ c ∧ c ≤ 'f' then some (c.toNat - 87)
  else if 'A' ≤ c ∧ c ≤ 'F' then some (c.toNat - 55)
  else none

/-- Models `hex::decode`: fails on odd length or any non-hex-digit
character, otherwise produces the byte list, two digits per byte. -/
def hexDecode : List Char → Option (List Nat)
  | [] => some []
  | [_] => none
  | c1 :: c2 :: rest =>
    match hexDigit? c1, hexDigit? c2, hexDecode rest with
    | some hi, some lo, some bs => some ((16 * hi + lo) :: bs)
    | _, _, _ => none

/-- Lowercase hex digit for a nibble, as produced by `hex::encode`. -/
def toHexDigit (d : Nat) : Char :=
  if d < 10 then Char.ofNat (48 + d) else Char.ofNat (87 + d)

/-- Models `hex::encode` (lowercase): two digits per byte, high nibble
first. -/
def hexEncode : List Nat → List Char
  | [] => []
  | b :: bs => toHexDigit (b / 16 % 16) :: toHexDigit (b % 16) :: hexEncode bs

theorem hexDigit_toHexDigit (d : Nat) (h : d < 16) :
    hexDigit? (toHexDigit d) = some d := by
  interval_cases d <;> decide

theorem hexDecode_hexEncode (bs : List Nat) (h : ∀ b ∈ bs, b < 256) :
    hexDecode (hexEncode bs) = some bs := by
  induction bs with
  | nil => rfl
  | cons b bs ih =>
    have hb : b < 256 := h b (List.mem_cons_self b bs)
    have htl := ih (fun x hx => h x (List.mem_cons_of_mem _ hx))
    have h1 : hexDigit? (toHexDigit (b / 16 % 16)) = some (b / 16 % 16) :=
      hexDigit_toHexDigit _ (Nat.mod_lt _ (by norm_num))
    have h2 : hexDigit? (toHexDigit (b % 16)) = some (b % 16) :=
      hexDigit_toHexDigit _ (Nat.mod_lt _ (by norm_num))
    have hval : 16 * (b / 16 % 16) + b % 16 = b := by omega
    simp only [hexEncode, hexDecode, h1, h2, htl, hval]

theorem hexDecode_none_of_odd :
    ∀ cs : List Char, cs.length % 2 = 1 → hexDecode cs = none
  | [], h => by simp at h
  | [_], _ => rfl
  | c1 :: c2 :: rest, h => by
    have hr : rest.length % 2 = 1 := by
      simp only [List.length_cons] at h; omega
    have ih := hexDecode_none_of_odd rest hr
    simp only [hexDecode, ih]
    cases hexDigit? c1 <;> cases hexDigit? c2 <;> rfl

theorem hexDecode_none_of_bad :
    ∀ cs : List Char, (∃ c ∈ cs, hexDigit? c = none) → hexDecode cs = none
  | [], h => by simp at h
  | [_], _ => rfl
  | c1 :: c2 :: rest, h => by
    obtain ⟨c, hc, hnone⟩ := h
    simp only [List.mem_cons] at hc
    rcases hc with rfl | rfl | hmem
    · simp only [hexDecode, hnone]
    · simp only [hexDecode, hnone]
      cases hexDigit? c1 <;> rfl
    · have ih := hexDecode_none_of_bad rest ⟨c, hmem, hnone⟩
      simp only [hexDecode, ih]
      cases hexDigit? c1 <;> cases hexDigit? c2 <;> rfl

/-! ## Prefix stripping (models `str::trim_start_matches`) -/

/-- Boolean test that `pat` is a prefix of `s`. -/
def hasPrefixL : List Char → List Char → Bool
  | [], _ => true
  | _ :: _, [] => false
  | p :: ps, c :: cs => p == c && hasPrefixL ps cs

theorem hasPrefixL_length_le :
    ∀ pat s : List Char, hasPrefixL pat s = true → pat.length ≤ s.length
  | [], _, _ => by simp
  | _ :: _, [], h => by simp [hasPrefixL] at h
  | p :: ps, c :: cs, h => by
    simp only [hasPrefixL, Bool.and_eq_true] at h
    have := hasPrefixL_length_le ps cs h.2
    simp only [List.length_cons]
    omega

theorem hasPrefixL_append (pat rest : List Char) :
    hasPrefixL pat (pat ++ rest) = true := by
  induction pat with
  | nil => rfl
  | cons p ps ih => simp [hasPrefixL, ih]

/-- One fuel-indexed pass of repeated prefix removal.  With fuel at least
the length of the string this is exactly Rust's `trim_start_matches`:
remove the pattern from the front as long as it is a prefix. -/
def trimStartAux (pat : List Char) : Nat → List Char → List Char
  | 0, s => s
  | fuel + 1, s =>
    if (!pat.isEmpty) && hasPrefixL pat s then
      trimStartAux pat fuel (s.drop pat.length)
    else s

/-- Models `s.trim_start_matches(pat)` for a nonempty pattern: repeatedly
removes `pat` from the front of `s` while it matches. -/
def trimStartMatches (pat s : List Char) : List Char :=
  trimStartAux pat s.length s

theorem trimStartAux_nil (pat : List Char) :
    ∀ fuel : Nat, trimStartAux pat fuel [] = []
  | 0 => rfl
  | fuel + 1 => by
    cases pat with
    | nil => simp [trimStartAux]
    | cons p ps => simp [trimStartAux, hasPrefixL]

theorem trimStartAux_fuel (pat : List Char) :
    ∀ (f1 : Nat) (s : List Char) (f2 : Nat), s.length ≤ f1 → s.length ≤ f2 →
      trimStartAux pat f1 s = trimStartAux pat f2 s
  | 0, s, f2, h1, _ => by
    have hs : s = [] := List.length_eq_zero.mp (Nat.le_zero.mp h1)
    subst hs
    rw [trimStartAux_nil, trimStartAux_nil]
  | f1 + 1, s, f2, h1, h2 => by
    by_cases hc : ((!pat.isEmpty) && hasPrefixL pat s) = true
    · have hpat : 1 ≤ pat.length := by
        cases pat with
        | nil => simp at hc
        | cons p ps => simp
      have hpre : hasPrefixL pat s = true := by
        simp only [Bool.and_eq_true] at hc; exact hc.2
      have hle : pat.length ≤ s.length := hasPrefixL_length_le pat s hpre
      cases f2 with
      | zero => omega
      | succ f2 =>
        simp only [trimStartAux]
        rw [if_pos hc, if_pos hc]
        have hd : (s.drop pat.length).length = s.length - pat.length :=
          List.length_drop _ _
        exact trimStartAux_fuel pat f1 (s.drop pat.length) f2
          (by omega) (by omega)
    · cases f2 with
      | zero =>
        have hs : s = [] := List.length_eq_zero.mp (Nat.le_zero.mp h2)
        subst hs
        rw [trimStartAux_nil, trimStartAux_nil]
      | succ f2 =>
        simp only [trimStartAux]
        rw [if_neg hc, if_neg hc]

theorem trimStartMatches_append (pat rest : List Char) (hne : pat ≠ []) :
    trimStartMatches pat (pat ++ rest) = trimStartMatches pat rest := by
  unfold trimStartMatches
  have hplen : 1 ≤ pat.length := by
    cases pat with
    | nil => exact absurd rfl hne
    | cons p ps => simp
  have hlen : (pat ++ rest).length = pat.length + rest.length :=
    List.length_append pat rest
  cases hL : (pat ++ rest).length with
  | zero => omega
  | succ n =>
    have hp1 : hasPrefixL pat (pat ++ rest) = true := hasPrefixL_append pat rest
    have hp2 : pat.isEmpty = false := by
      cases pat with
      | nil => exact absurd rfl hne
      | cons p ps => rfl
    have hcond : ((!pat.isEmpty) && hasPrefixL pat (pat ++ rest)) = true := by
      rw [hp1, hp2]; rfl
    simp only [trimStartAux]
    rw [if_pos hcond, List.drop_left]
    exact trimStartAux_fuel pat n rest rest.length (by omega) (le_refl _)

theorem trimStartMatches_no_match (pat s : List Char)
    (h : hasPrefixL pat s = false) : trimStartMatches pat s = s := by
  unfold trimStartMatches
  cases s with
  | nil => rw [trimStartAux_nil]
  | cons c cs => simp [trimStartAux, h]

/-! ## Signature verifier (models `validate_signature` in http-source) -/

/-- The literal pattern "sha256=" stripped from the signature header. -/
def sha256Eq : List Char := ['s', 'h', 'a', '2', '5', '6', '=']

/-- Shape of an HMAC-SHA256 implementation: for every key and message the
tag is a list of 32 bytes. -/
def tagShape (hm : List Nat → List Nat → List Nat) : Prop :=
  ∀ k m, (hm k m).length = 32 ∧ ∀ b ∈ hm k m, b < 256

/-- Models `validate_signature` from http-source/src/main.rs.  Key
construction (`Hmac::new_from_slice`) accepts any key length for HMAC, so
its error branch is unreachable; the signature header is stripped of the
"sha256=" pattern, hex-decoded (failure yields `false`), and the decoded
bytes are compared against the computed tag (`verify_slice`). -/
def validate_signature (hm : List Nat → List Nat → List Nat)
    (secret body : List Nat) (signature : List Char) : Bool :=
  match hexDecode (trimStartMatches sha256Eq signature) with
  | some expected => expected == hm secret body
  | none => false

/-- Modelled from the spec: the client-side signing operation producing a
header value in the documented format "sha256=<hex>", where the hex is the
lowercase encoding of the HMAC-SHA256 tag of the body under the secret.
The repository contains only the verifier, not the signer. -/
def sign (hm : List Nat → List Nat → List Nat)
    (secret body : List Nat) : List Char :=
  sha256Eq ++ hexEncode (hm secret body)

theorem s_ne_toHexDigit (d : Nat) (h : d < 16) :
    ('s' == toHexDigit d) = false := by
  interval_cases d <;> decide

theorem hasPrefixL_sha256_hexEncode (bs : List Nat) :
    hasPrefixL sha256Eq (hexEncode bs) = false := by
  cases bs with
  | nil => rfl
  | cons b bs =>
    have h1 : b / 16 % 16 < 16 := Nat.mod_lt _ (by norm_num)
    simp [hexEncode, sha256Eq, hasPrefixL, s_ne_toHexDigit _ h1]

theorem validate_signature_sign_eq (hm : List Nat → List Nat → List Nat)
    (hshape : tagShape hm) (S B B' : List Nat) :
    validate_signature hm S B (sign hm S B') = (hm S B' == hm S B) := by
  unfold validate_signature sign
  rw [trimStartMatches_append _ _ (by decide),
    trimStartMatches_no_match _ _ (hasPrefixL_sha256_hexEncode (hm S B')),
    hexDecode_hexEncode _ (hshape S B').2]

/-! ## A concrete tag-shaped MAC for witnesses, and MAC collisions -/

/-- Degenerate MAC used only to instantiate witness theorems: constant
32-byte tag.  Theorems about the program quantify over every tag-shaped
MAC; this function merely discharges their hypotheses on concrete runs. -/
def hmacDummy : List Nat → List Nat → List Nat :=
  fun _ _ => List.replicate 32 0

theorem hmacDummy_shape : tagShape hmacDummy := by
  intro k m
  constructor
  · simp [hmacDummy]
  · intro b hb
    have := List.eq_of_mem_replicate hb
    omega

/-- Every function producing 32-byte tags identifies two distinct bodies:
the message space is infinite while the tag space is finite.  This applies
in particular to the real HMAC-SHA256. -/
theorem exists_mac_collision (hm : List Nat → List Nat → List Nat)
    (hshape : tagShape hm) (S : List Nat) :
    ∃ B B' : List Nat, B ≠ B' ∧ hm S B = hm S B' := by
  let g : Nat → (Fin 32 → Fin 256) := fun n i =>
    ⟨(hm S [n]).getD i 0 % 256, Nat.mod_lt _ (by norm_num)⟩
  obtain ⟨n, m, hnm, hg⟩ := Finite.exists_ne_map_eq_of_infinite g
  refine ⟨[n], [m], by simpa using hnm, ?_⟩
  have hlen1 : (hm S [n]).length = 32 := (hshape S [n]).1
  have hlen2 : (hm S [m]).length = 32 := (hshape S [m]).1
  apply List.ext_getElem (by rw [hlen1, hlen2])
  intro i h1 h2
  have hi : i < 32 := by omega
  have hpt := congrFun hg ⟨i, hi⟩
  have hv : (hm S [n]).getD i 0 % 256 = (hm S [m]).getD i 0 % 256 :=
    congrArg Fin.val hpt
  have hg1 : (hm S [n]).getD i 0 = (hm S [n])[i] := List.getD_eq_getElem _ _ h1
  have hg2 : (hm S [m]).getD i 0 = (hm S [m])[i] := List.getD_eq_getElem _ _ h2
  have hb1 : (hm S [n])[i] < 256 := (hshape S [n]).2 _ (List.getElem_mem h1)
  have hb2 : (hm S [m])[i] < 256 := (hshape S [m]).2 _ (List.getElem_mem h2)
  rw [hg1, hg2] at hv
  rw [Nat.mod_eq_of_lt hb1, Nat.mod_eq_of_lt hb2] at hv
  exact hv

/-! ## Header values: `HeaderValue::to_str` and UTF-8 validity -/

/-- Condition under which the http crate's `HeaderValue::to_str` succeeds:
every byte is visible ASCII, space, or tab. -/
def isVisAscii (b : Nat) : Bool := (32 ≤ b && b < 127) || b == 9

/-- Models `HeaderValue::to_str().ok()`: the byte values become the
characters of the string exactly when all bytes are visible ASCII. -/
def headerToStr (v : List Nat) : Option (List Char) :=
  if v.all isVisAscii then some (v.map Char.ofNat) else none

/-- Continuation byte of a UTF-8 multi-byte sequence. -/
def isCont (b : Nat) : Bool := 128 ≤ b && b ≤ 191

/-- Allowed second byte of a three-byte UTF-8 sequence with leading byte
`b` (excludes overlong encodings and surrogates). -/
def utf8Mid (b c1 : Nat) : Bool :=
  if b == 224 then 160 ≤ c1 && c1 ≤ 191
  else if b == 237 then 128 ≤ c1 && c1 ≤ 159
  else isCont c1

/-- Allowed second byte of a four-byte UTF-8 sequence with leading byte
`b` (excludes overlong encodings and values above U+10FFFF). -/
def utf8Lead4 (b c1 : Nat) : Bool :=
  if b == 240 then 144 ≤ c1 && c1 ≤ 191
  else if b == 244 then 128 ≤ c1 && c1 ≤ 143
  else isCont c1

/-- Length of the well-formed UTF-8 sequence at the front of `l`, or `none`
if the front is not a well-formed sequence (RFC 3629 table). -/
def utf8SeqLen (l : List Nat) : Option Nat :=
  match l with
  | [] => none
  | b :: rest =>
    if b ≤ 127 then some 1
    else if 194 ≤ b && b ≤ 223 then
      match rest with
      | c1 :: _ => if isCont c1 then some 2 else none
      | _ => none
    else if 224 ≤ b && b ≤ 239 then
      match rest with
      | c1 :: c2 :: _ => if utf8Mid b c1 && isCont c2 then some 3 else none
      | _ => none
    else if 240 ≤ b && b ≤ 244 then
      match rest with
      | c1 :: c2 :: c3 :: _ =>
        if utf8Lead4 b c1 && isCont c2 && isCont c3 then some 4 else none
      | _ => none
    else none

/-- Fuel-indexed loop consuming one UTF-8 sequence at a time; with fuel at
least the length of the list this decides UTF-8 validity. -/
def validUtf8Aux : Nat → List Nat → Bool
  | 0, l => l.isEmpty
  | fuel + 1, l =>
    match utf8SeqLen l with
    | some n => validUtf8Aux fuel (l.drop n)
    | none => l.isEmpty

/-- UTF-8 validity of a byte sequence. -/
def validUtf8 (l : List Nat) : Bool := validUtf8Aux l.length l

theorem validUtf8Aux_of_ascii :
    ∀ (fuel : Nat) (v : List Nat), v.length ≤ fuel → (∀ b ∈ v, b < 128) →
      validUtf8Aux fuel v = true := by
  intro fuel
  induction fuel with
  | zero =>
    intro v hlen _
    have hv : v = [] := List.length_eq_zero.mp (Nat.le_zero.mp hlen)
    subst hv
    rfl
  | succ fuel ih =>
    intro v hlen hall
    cases v with
    | nil => rfl
    | cons b rest =>
      have hb : b < 128 := hall b (List.mem_cons_self b rest)
      have hseq : utf8SeqLen (b :: rest) = some 1 := by
        unfold utf8SeqLen
        dsimp only
        rw [if_pos (by omega : b ≤ 127)]
      simp only [validUtf8Aux, hseq, List.drop_succ_cons, List.drop_zero]
      exact ih rest (by simp only [List.length_cons] at hlen; omega)
        (fun x hx => hall x (List.mem_cons_of_mem _ hx))

theorem validUtf8_of_ascii (v : List Nat) (h : ∀ b ∈ v, b < 128) :
    validUtf8 v = true :=
  validUtf8Aux_of_ascii v.length v (le_refl _) h

theorem exists_high_byte_of_invalid (v : List Nat) (h : validUtf8 v = false) :
    ∃ b ∈ v, 128 ≤ b := by
  by_contra hc
  push_neg at hc
  have := validUtf8_of_ascii v (fun b hb => by have := hc b hb; omega)
  rw [this] at h
  exact Bool.noConfusion h

theorem isVisAscii_high (b : Nat) (h : 128 ≤ b) : isVisAscii b = false := by
  have h1 : decide (b < 127) = false := decide_eq_false (by omega)
  have h2 : (b == 9) = false := beq_eq_false_iff_ne.mpr (by omega)
  simp [isVisAscii, h1, h2]

theorem headerToStr_none_of_invalid_utf8 (v : List Nat)
    (h : validUtf8 v = false) : headerToStr v = none := by
  obtain ⟨b, hb, hhigh⟩ := exists_high_byte_of_invalid v h
  unfold headerToStr
  rw [if_neg]
  intro hall
  have hvis : isVisAscii b = true := List.all_eq_true.mp hall b hb
  rw [isVisAscii_high b hhigh] at hvis
  exact Bool.noConfusion hvis

/-! ## Lossy UTF-8 decoding (models `String::from_utf8_lossy`) -/

/-- The Unicode replacement character U+FFFD. -/
def replChar : Char := Char.ofNat 65533

/-- Decodes the first UTF-8 sequence of a nonempty list: yields the decoded
character and the number of bytes consumed, or the replacement character
and the length of the maximal subpart of an ill-formed sequence (as in
Rust's `String::from_utf8_lossy`). -/
def utf8Decode1 (l : List Nat) : Char × Nat :=
  match l with
  | [] => (replChar, 1)
  | b :: rest =>
    if b ≤ 127 then (Char.ofNat b, 1)
    else if 194 ≤ b && b ≤ 223 then
      match rest with
      | c1 :: _ =>
        if isCont c1 then (Char.ofNat ((b % 32) * 64 + c1 % 64), 2)
        else (replChar, 1)
      | _ => (replChar, 1)
    else if 224 ≤ b && b ≤ 239 then
      match rest with
      | c1 :: rest1 =>
        if utf8Mid b c1 then
          match rest1 with
          | c2 :: _ =>
            if isCont c2 then
              (Char.ofNat ((b % 16) * 4096 + (c1 % 64) * 64 + c2 % 64), 3)
            else (replChar, 2)
          | _ => (replChar, 2)
        else (replChar, 1)
      | _ => (replChar, 1)
    else if 240 ≤ b && b ≤ 244 then
      match rest with
      | c1 :: rest1 =>
        if utf8Lead4 b c1 then
          match rest1 with
          | c2 :: rest2 =>
            if isCont c2 then
              match rest2 with
              | c3 :: _ =>
                if isCont c3 then
                  (Char.ofNat
                    ((b % 8) * 262144 + (c1 % 64) * 4096 + (c2 % 64) * 64
                      + c3 % 64), 4)
                else (replChar, 3)
              | _ => (replChar, 3)
            else (replChar, 2)
          | _ => (replChar, 2)
        else (replChar, 1)
      | _ => (replChar, 1)
    else (replChar, 1)

/-- Fuel-indexed decoding loop; each step consumes at least one byte, so
fuel equal to the byte count suffices. -/
def utf8LossyAux : Nat → List Nat → List Char
  | 0, _ => []
  | fuel + 1, l =>
    match l with
    | [] => []
    | _ :: _ => (utf8Decode1 l).1 :: utf8LossyAux fuel (l.drop (utf8Decode1 l).2)

/-- Models `String::from_utf8_lossy(&body).to_string()`. -/
def utf8Lossy (l : List Nat) : List Char := utf8LossyAux l.length l

/-! ## The webhook receiver (models `handle_request` in http-source) -/

/-- Payload of an `http.request` event, mirroring struct
`HttpRequestPayload` of http-source/src/main.rs. -/
structure HttpRequestPayload where
  method : List Char
  path : List Char
  headers : List (List Char × List Char)
  body : List Char
  remote_addr : Option (List Char)
deriving DecidableEq

/-- Observable outcome of one call to the receiver's request handler:
the HTTP status and body of the response, whether the signature verifier
ran, how many publish calls were made, and the payload handed to publish
(if any). -/
structure HandlerResult where
  status : Nat
  respBody : List Char
  verifierCalled : Bool
  publishAttempts : Nat
  published : Option HttpRequestPayload
deriving DecidableEq

/-- The header name looked up by the receiver (axum stores names
lowercased). -/
def xSigName : List Char :=
  ['x', '-', 's', 'i', 'g', 'n', 'a', 't', 'u', 'r', 'e']

/-- Models `HeaderMap::get`: first value with the given (lowercase) name. -/
def headerGet (hs : List (List Char × List Nat)) (name : List Char) :
    Option (List Nat) :=
  (hs.find? (fun p => p.1 == name)).map (fun p => p.2)

/-- The sequence of convertible headers in iteration order: the
`filter_map` of `handle_request` before the HashMap collect (headers whose
value fails `to_str` are dropped). -/
def headersSeq (hs : List (List Char × List Nat)) :
    List (List Char × List Char) :=
  hs.filterMap (fun p => (headerToStr p.2).map (fun s => (p.1, s)))

/-- Map insertion with overwrite, as performed for each pair by the
`collect::<HashMap<_, _>>()`: an existing entry for the key is replaced,
a fresh key is appended. -/
def insertKV : List (List Char × List Char) → List Char → List Char →
    List (List Char × List Char)
  | [], k, v => [(k, v)]
  | (a, b) :: rest, k, v =>
    if a == k then (k, v) :: rest else (a, b) :: insertKV rest k v

/-- Lookup in an association list (first entry with the key). -/
def lookupKV (m : List (List Char × List Char)) (q : List Char) :
    Option (List Char) :=
  (m.find? (fun p => p.1 == q)).map (fun p => p.2)

/-- Value of the last pair with the given key in a sequence of pairs —
the value a HashMap collect retains for that key. -/
def lastLookup (l : List (List Char × List Char)) (q : List Char) :
    Option (List Char) :=
  (l.reverse.find? (fun p => p.1 == q)).map (fun p => p.2)

/-- Models the headers map of `handle_request`: the convertible headers
are collected into a HashMap, so a later value for an already present name
overwrites the earlier one (last wins).  The association list keeps
first-insertion order as a canonical representation of the unordered
HashMap; the faithful content is the key-to-value mapping exposed by
`lookupKV`. -/
def headersToMap (hs : List (List Char × List Nat)) :
    List (List Char × List Char) :=
  (headersSeq hs).foldl (fun m p => insertKV m p.1 p.2) []

theorem lookupKV_cons (a b : List Char)
    (rest : List (List Char × List Char)) (q : List Char) :
    lookupKV ((a, b) :: rest) q =
      if a == q then some b else lookupKV rest q := by
  unfold lookupKV
  rw [List.find?_cons]
  by_cases h : (a == q) = true <;> simp [h]

theorem lookupKV_insertKV :
    ∀ (m : List (List Char × List Char)) (k v q : List Char),
      lookupKV (insertKV m k v) q = if k == q then some v else lookupKV m q
  | [], k, v, q => by
    show lookupKV [(k, v)] q = if k == q then some v else lookupKV [] q
    rw [lookupKV_cons]
  | (a, b) :: rest, k, v, q => by
    by_cases ha : (a == k) = true
    · have hak : a = k := beq_iff_eq.mp ha
      subst hak
      have hins : insertKV ((a, b) :: rest) a v = (a, v) :: rest := by
        simp [insertKV]
      rw [hins, lookupKV_cons, lookupKV_cons]
      by_cases hq : (a == q) = true <;> simp [hq]
    · have hins : insertKV ((a, b) :: rest) k v =
          (a, b) :: insertKV rest k v := by
        simp [insertKV, ha]
      rw [hins, lookupKV_cons, lookupKV_insertKV rest k v q, lookupKV_cons]
      by_cases hq : (a == q) = true
      · have hkq : (k == q) = false := by
          apply beq_eq_false_iff_ne.mpr
          intro hk
          rw [hk] at ha
          exact ha hq
        simp [hq, hkq]
      · simp [hq]

theorem findq_append :
    ∀ (l1 l2 : List (List Char × List Char))
      (f : (List Char × List Char) → Bool),
      (l1 ++ l2).find? f =
        match l1.find? f with
        | some a => some a
        | none => l2.find? f
  | [], l2, f => by simp
  | a :: l1, l2, f => by
    rw [List.cons_append, List.find?_cons, List.find?_cons]
    cases h : f a with
    | true => simp
    | false => simp [findq_append l1 l2 f]

theorem lastLookup_cons (p : List Char × List Char)
    (l : List (List Char × List Char)) (q : List Char) :
    lastLookup (p :: l) q =
      match lastLookup l q with
      | some v => some v
      | none => if p.1 == q then some p.2 else none := by
  unfold lastLookup
  rw [List.reverse_cons, findq_append]
  cases h : l.reverse.find? (fun x => x.1 == q) with
  | some a => simp
  | none =>
    rw [List.find?_cons]
    by_cases hp : (p.1 == q) = true <;> simp [hp]

theorem lookupKV_foldl_insert :
    ∀ (l init : List (List Char × List Char)) (q : List Char),
      lookupKV (l.foldl (fun m p => insertKV m p.1 p.2) init) q =
        match lastLookup l q with
        | some v => some v
        | none => lookupKV init q
  | [], init, q => rfl
  | p :: l, init, q => by
    rw [List.foldl_cons, lookupKV_foldl_insert l _ q, lookupKV_insertKV,
      lastLookup_cons]
    cases h : lastLookup l q with
    | some v => simp
    | none => by_cases hp : (p.1 == q) = true <;> simp [hp]

/-- Event payload built by `handle_request`: the method string, the literal
path "/" (the axum handler has no access to the request path, see the
comment in the source), the converted headers, the lossily decoded body,
and no remote address. -/
def buildPayload (method : List Char) (hs : List (List Char × List Nat))
    (body : List Nat) : HttpRequestPayload :=
  { method := method
    path := ['/']
    headers := headersToMap hs
    body := utf8Lossy body
    remote_addr := none }

/-- Publish phase of `handle_request`: one publish call; on success respond
202 with empty body, on failure respond 500. -/
def publishStep (pubOk : Bool) (vc : Bool) (p : HttpRequestPayload) :
    HandlerResult :=
  if pubOk then ⟨202, [], vc, 1, some p⟩
  else ⟨500, "Failed to publish event".data, vc, 1, some p⟩

/-- Models `handle_request` of http-source/src/main.rs.  `hm` is the MAC
function, `pubOk` the outcome the bus would give to a publish call,
`reqPath` the path of the inbound request (unused: axum does not pass it
to the handler). -/
def handle_request (hm : List Nat → List Nat → List Nat)
    (secret : Option (List Nat)) (pubOk : Bool)
    (method reqPath : List Char) (hs : List (List Char × List Nat))
    (body : List Nat) : HandlerResult :=
  match secret with
  | some s =>
    match (headerGet hs xSigName).bind headerToStr with
    | some signature =>
      if validate_signature hm s body signature then
        publishStep pubOk true (buildPayload method hs body)
      else ⟨401, "Invalid signature".data, true, 0, none⟩
    | none => ⟨401, "Missing signature".data, false, 0, none⟩
  | none => publishStep pubOk false (buildPayload method hs body)

/-- The condition under which the handler reaches the publish phase:
no secret configured, or a convertible `x-signature` header that the
verifier accepts. -/
def sigCheckPasses (hm : List Nat → List Nat → List Nat)
    (secret : Option (List Nat)) (hs : List (List Char × List Nat))
    (body : List Nat) : Prop :=
  match secret with
  | none => True
  | some s => ∃ sig, (headerGet hs xSigName).bind headerToStr = some sig ∧
      validate_signature hm s body sig = true

/-! ## JSON values and the outbound dispatcher (http-sink) -/

/-- JSON-like values, as in `serde_json::Value` (numbers abstracted as
integers; the claims never inspect numeric content). -/
inductive JValue where
  | null
  | bool (b : Bool)
  | num (n : Int)
  | str (s : List Char)
  | arr (elems : List JValue)
  | obj (fields : List (List Char × JValue))

/-- Models `Value::get(key)`: a field lookup on objects, `None` on every
other variant. -/
def JValue.get (v : JValue) (key : List Char) : Option JValue :=
  match v with
  | .obj fields => (fields.find? (fun p => p.1 == key)).map (fun p => p.2)
  | _ => none

/-- Models `Value::as_str`. -/
def JValue.asStr : JValue → Option (List Char)
  | .str s => some s
  | _ => none

/-- Models `Value::is_null`. -/
def JValue.isNull : JValue → Bool
  | .null => true
  | _ => false

/-- Models `base.trim_end_matches('/')`: all trailing slashes removed. -/
def trimEndSlashes (s : List Char) : List Char :=
  (s.reverse.dropWhile (fun c => c == '/')).reverse

/-- Models `extract_url` of http-sink/src/main.rs. -/
def extract_url (payload : JValue) (base_url : Option (List Char)) :
    Option (List Char) :=
  match (payload.get ['u', 'r', 'l']).bind JValue.asStr with
  | some url => some url
  | none =>
    match (payload.get ['p', 'a', 't', 'h']).bind JValue.asStr with
    | some path =>
      match base_url with
      | some base => some (trimEndSlashes base ++ path)
      | none => some path
    | none => none

/-- Models the body extraction in http-sink's main loop:
`payload.get("body").unwrap_or(payload)`. -/
def resolve_body (payload : JValue) : JValue :=
  (payload.get ['b', 'o', 'd', 'y']).getD payload

/-- The body attached to the outbound request: `make_request` attaches the
resolved body as JSON only when it is not null. -/
def sentBody (payload : JValue) : Option JValue :=
  if (resolve_body payload).isNull then none else some (resolve_body payload)

/-- Outcome of one send attempt of the dispatcher's HTTP client: a 2xx
response, a non-2xx response with its status, or a transport error. -/
inductive SendResult where
  | success
  | httpError (status : Nat)
  | transportError
deriving DecidableEq

/-- Retry loop of `make_request` in http-sink/src/main.rs, indexed by the
number of loop iterations still allowed (`max_attempts - attempts`) and
the attempts already made.  Returns the number of send attempts performed,
the list of back-off sleeps in milliseconds (in order), and whether the
function returned `Ok`.  `send k` is the outcome of the k-th attempt
(1-based). -/
def make_request_loop (send : Nat → SendResult) :
    Nat → Nat → Nat × List Nat × Bool
  | 0, _ => (0, [], false)
  | remaining + 1, attempts =>
    if send (attempts + 1) = SendResult.success then (1, [], true)
    else if remaining = 0 then (1, [], false)
    else
      let r := make_request_loop send remaining (attempts + 1)
      (r.1 + 1, 100 * (attempts + 1) :: r.2.1, r.2.2)

/-- Models `make_request` for a given retry configuration: the Rust code
computes `max_attempts = retries + 1` in `u32` arithmetic, which wraps
modulo 2^32 (release profile; the debug profile aborts on the same
overflow), then runs the retry loop starting from zero attempts. -/
def make_request (send : Nat → SendResult) (retries : Nat) :
    Nat × List Nat × Bool :=
  make_request_loop send ((retries + 1) % 4294967296) 0

theorem make_request_loop_all_fail (send : Nat → SendResult)
    (hfail : ∀ k, send k ≠ SendResult.success) :
    ∀ (remaining attempts : Nat),
      make_request_loop send remaining attempts =
        (remaining,
         (List.range (remaining - 1)).map (fun i => 100 * (attempts + 1 + i)),
         false) := by
  intro remaining
  induction remaining with
  | zero => intro attempts; rfl
  | succ remaining ih =>
    intro attempts
    have hne : send (attempts + 1) ≠ SendResult.success := hfail _
    simp only [make_request_loop]
    rw [if_neg hne]
    cases remaining with
    | zero => simp
    | succ m =>
      rw [if_neg (Nat.succ_ne_zero m)]
      rw [ih (attempts + 1)]
      dsimp only
      simp only [Prod.mk.injEq, Nat.succ_sub_one, Nat.add_sub_cancel]
      refine ⟨trivial, ?_, trivial⟩
      rw [List.range_succ_eq_map, List.map_cons, List.map_map]
      refine congrArg₂ List.cons (by omega) ?_
      apply List.map_congr_left
      intro i _
      simp only [Function.comp_apply]
      omega

/-! ## Claim C1: retry bound and linear backoff of the dispatcher -/

/-- C1 (amended): for every retry configuration N with N + 1 < 2^32 and
every target failing on every attempt (non-2xx or transport error),
`make_request` performs exactly N + 1 send attempts, returns an error, and
sleeps exactly 100ms * k between consecutive attempts k and k + 1 (linear
backoff).  The claim as frozen, without the bound on N, fails at
N = u32::MAX where `retries + 1` overflows. -/
theorem make_request_retry_bound (send : Nat → SendResult) (N : Nat)
    (hN : N + 1 < 4294967296) (hfail : ∀ k, send k ≠ SendResult.success) :
    (make_request send N).1 = N + 1 ∧
    (make_request send N).2.2 = false ∧
    (make_request send N).2.1 = (List.range N).map (fun k => 100 * (k + 1)) := by
  unfold make_request
  rw [Nat.mod_eq_of_lt hN]
  rw [make_request_loop_all_fail send hfail (N + 1) 0]
  refine ⟨rfl, rfl, ?_⟩
  simp only [Nat.add_sub_cancel, Nat.zero_add]
  apply List.map_congr_left
  intro i _
  omega

/-- Witness for C1: a permanently failing target with 2 retries is attempted
3 times, sleeps 100ms then 200ms, and ends in an error. -/
theorem make_request_retry_bound_witness :
    (make_request (fun _ => SendResult.transportError) 2).1 = 3 ∧
    (make_request (fun _ => SendResult.transportError) 2).2.2 = false ∧
    (make_request (fun _ => SendResult.transportError) 2).2.1 =
      (List.range 2).map (fun k => 100 * (k + 1)) := by
  have h := make_request_retry_bound (fun _ => SendResult.transportError) 2
    (by norm_num) (fun k h => SendResult.noConfusion h)
  exact ⟨h.1, h.2.1, h.2.2⟩

/-- C1 counterexample: with retries = u32::MAX = 4294967295 the Rust code
computes `max_attempts = retries + 1 = 0` (u32 wrap-around; the debug
profile instead aborts), so zero send attempts are made rather than the
claimed retries + 1 = 2^32. -/
theorem make_request_retry_overflow_cex :
    (make_request (fun _ => SendResult.transportError) 4294967295).1 = 0 ∧
    (0 : Nat) ≠ 4294967295 + 1 := by
  constructor
  · have h : (4294967295 + 1) % 4294967296 = 0 := by norm_num
    show (make_request_loop _ ((4294967295 + 1) % 4294967296) 0).1 = 0
    rw [h]
    rfl
  · omega

/-! ## Claim C2: soundness of the signature verifier -/

/-- C2 (amended): for every tag-shaped MAC function (in particular the real
HMAC-SHA256), (1) a signature produced by signing the body with the same
secret verifies; (2) a signature produced over a body whose MAC tag differs
is rejected; (3) a signature header whose hex part is malformed (odd
length or a non-hex character after stripping "sha256=") is rejected, and
the verifier is a total function, so it never panics.  The claim as frozen
asks for rejection for every B' ≠ B, which no 32-byte MAC can satisfy
(collisions exist by pigeonhole). -/
theorem validate_signature_correct (hm : List Nat → List Nat → List Nat)
    (hshape : tagShape hm) :
    (∀ S B, validate_signature hm S B (sign hm S B) = true) ∧
    (∀ S B B', hm S B' ≠ hm S B →
      validate_signature hm S B (sign hm S B') = false) ∧
    (∀ S B sig, ((trimStartMatches sha256Eq sig).length % 2 = 1 ∨
        ∃ c ∈ trimStartMatches sha256Eq sig, hexDigit? c = none) →
      validate_signature hm S B sig = false) := by
  refine ⟨?_, ?_, ?_⟩
  · intro S B
    rw [validate_signature_sign_eq hm hshape]
    exact beq_self_eq_true _
  · intro S B B' hne
    rw [validate_signature_sign_eq hm hshape]
    exact beq_eq_false_iff_ne.mpr hne
  · intro S B sig hbad
    unfold validate_signature
    rcases hbad with hodd | hbadc
    · rw [hexDecode_none_of_odd _ hodd]
    · rw [hexDecode_none_of_bad _ hbadc]

/-- Witness for C2: a correctly signed body verifies on a concrete run. -/
theorem validate_signature_correct_witness :
    validate_signature hmacDummy [107] [1, 2]
      (sign hmacDummy [107] [1, 2]) = true :=
  (validate_signature_correct hmacDummy hmacDummy_shape).1 [107] [1, 2]

/-- C2 counterexample: the frozen claim demands rejection of
`sign(S, B')` for every B' ≠ B, for the (32-byte-tag) MAC used by the
code; this is false, because any function into 32-byte tags has two
distinct bodies with equal tags, and the verifier accepts the signature of
the colliding body. -/
theorem validate_signature_injective_cex :
    ¬ (∀ hm : List Nat → List Nat → List Nat, tagShape hm →
        ∀ S B B' : List Nat, B ≠ B' →
          validate_signature hm S B (sign hm S B') = false) := by
  intro hclaim
  obtain ⟨B, B', hne, hcol⟩ :=
    exists_mac_collision hmacDummy hmacDummy_shape [107]
  have htrue : validate_signature hmacDummy [107] B
      (sign hmacDummy [107] B') = true := by
    rw [validate_signature_sign_eq hmacDummy hmacDummy_shape]
    exact beq_iff_eq.mpr hcol.symm
  have hfalse := hclaim hmacDummy hmacDummy_shape [107] B B' hne
  rw [htrue] at hfalse
  exact Bool.noConfusion hfalse

/-! ## Claim C3: 401 on missing or invalid signature, without publishing -/

/-- C3: when a secret is configured, a request without an `x-signature`
header is answered 401 Unauthorized and nothing is published; a request
whose signature header the verifier rejects is answered 401 Unauthorized
and nothing is published. -/
theorem receiver_rejects_unauthorized (hm : List Nat → List Nat → List Nat)
    (s : List Nat) (pubOk : Bool) (method reqPath : List Char)
    (hs : List (List Char × List Nat)) (body : List Nat) :
    (headerGet hs xSigName = none →
      handle_request hm (some s) pubOk method reqPath hs body =
        ⟨401, "Missing signature".data, false, 0, none⟩) ∧
    (∀ v sig, headerGet hs xSigName = some v → headerToStr v = some sig →
      validate_signature hm s body sig = false →
      handle_request hm (some s) pubOk method reqPath hs body =
        ⟨401, "Invalid signature".data, true, 0, none⟩) := by
  constructor
  · intro hget
    simp [handle_request, hget]
  · intro v sig hget hstr hval
    simp [handle_request, hget, hstr, hval]

/-- Witness for C3: a concrete request with no signature header gets the
401 missing-signature response, and one with a wrong two-digit signature
gets the 401 invalid-signature response; neither publishes. -/
theorem receiver_rejects_unauthorized_witness :
    handle_request hmacDummy (some [107]) true "POST".data "/".data [] [] =
      ⟨401, "Missing signature".data, false, 0, none⟩ ∧
    handle_request hmacDummy (some [107]) true "POST".data "/".data
      [(xSigName, [48, 48])] [] =
      ⟨401, "Invalid signature".data, true, 0, none⟩ := by
  constructor
  · exact (receiver_rejects_unauthorized hmacDummy [107] true "POST".data
      "/".data [] []).1 rfl
  · exact (receiver_rejects_unauthorized hmacDummy [107] true "POST".data
      "/".data [(xSigName, [48, 48])] []).2 [48, 48] ['0', '0']
      (by decide) (by decide) (by decide)

/-! ## Claim C8: exactly one publish attempt, 202 on success, 500 on failure -/

/-- C8: every request that passes the signature check leads to exactly one
publish attempt; the response is 202 Accepted when publish succeeds and
500 Internal Server Error when it fails. -/
theorem receiver_publish_once (hm : List Nat → List Nat → List Nat)
    (secret : Option (List Nat)) (pubOk : Bool) (method reqPath : List Char)
    (hs : List (List Char × List Nat)) (body : List Nat)
    (hacc : sigCheckPasses hm secret hs body) :
    (handle_request hm secret pubOk method reqPath hs body).publishAttempts
      = 1 ∧
    (handle_request hm secret pubOk method reqPath hs body).status =
      (if pubOk then 202 else 500) := by
  cases secret with
  | none =>
    cases pubOk <;> simp [handle_request, publishStep]
  | some s =>
    obtain ⟨sig, hbind, hval⟩ := hacc
    cases pubOk <;> simp [handle_request, hbind, hval, publishStep]

/-- Witness for C8: with no secret and a healthy bus, a concrete request is
published once and answered 202. -/
theorem receiver_publish_once_witness :
    (handle_request hmacDummy none true "POST".data "/".data [] []).publishAttempts = 1 ∧
    (handle_request hmacDummy none true "POST".data "/".data [] []).status =
      (if true then 202 else 500) :=
  receiver_publish_once hmacDummy none true "POST".data "/".data [] []
    True.intro

/-! ## Claim C9: optional "sha256=" front matter of the signature header -/

/-- C9: a signature header of the form "sha256=" ++ h verifies exactly as
h does, and a header that does not start with the pattern is decoded
as-is (the stripping step leaves it unchanged). -/
theorem validate_signature_sha_stripping
    (hm : List Nat → List Nat → List Nat) (S B : List Nat) :
    (∀ h : List Char,
      validate_signature hm S B (sha256Eq ++ h) =
        validate_signature hm S B h) ∧
    (∀ sig : List Char, hasPrefixL sha256Eq sig = false →
      trimStartMatches sha256Eq sig = sig) := by
  constructor
  · intro h
    unfold validate_signature
    rw [trimStartMatches_append _ _ (by decide)]
  · intro sig hnp
    exact trimStartMatches_no_match _ _ hnp

/-- Witness for C9 on a concrete header. -/
theorem validate_signature_sha_stripping_witness :
    validate_signature hmacDummy [107] [1] (sha256Eq ++ ['0', '0']) =
      validate_signature hmacDummy [107] [1] ['0', '0'] ∧
    trimStartMatches sha256Eq ['0', '0'] = ['0', '0'] := by
  constructor
  · exact (validate_signature_sha_stripping hmacDummy [107] [1]).1 ['0', '0']
  · exact (validate_signature_sha_stripping hmacDummy [107] [1]).2 ['0', '0']
      (by decide)

/-! ## Claim C10: non-UTF-8 signature header values count as missing -/

/-- C10: when a secret is configured and the `x-signature` header value is
not valid UTF-8 (hence not convertible by `to_str`), the handler responds
401 with body "Missing signature", never runs the verifier, publishes
nothing — exactly the response it gives when the header is absent
altogether (second conjunct: the same request with every `x-signature`
header removed gets the identical response). -/
theorem receiver_nonutf8_signature (hm : List Nat → List Nat → List Nat)
    (s : List Nat) (pubOk : Bool) (method reqPath : List Char)
    (hs : List (List Char × List Nat)) (body : List Nat) (v : List Nat)
    (hget : headerGet hs xSigName = some v) (hbad : validUtf8 v = false) :
    handle_request hm (some s) pubOk method reqPath hs body =
      ⟨401, "Missing signature".data, false, 0, none⟩ ∧
    handle_request hm (some s) pubOk method reqPath
      (hs.filter (fun p => !(p.1 == xSigName))) body =
      ⟨401, "Missing signature".data, false, 0, none⟩ := by
  have hstr : headerToStr v = none := headerToStr_none_of_invalid_utf8 v hbad
  constructor
  · simp [handle_request, hget, hstr]
  · have hfind : (hs.filter (fun p => !(p.1 == xSigName))).find?
        (fun p => p.1 == xSigName) = none := by
      rw [List.find?_eq_none]
      intro x hx
      have hpx := (List.mem_filter.mp hx).2
      simp only [Bool.not_eq_eq_eq_not, Bool.not_true] at hpx
      simp [hpx]
    have hnone : headerGet (hs.filter (fun p => !(p.1 == xSigName)))
        xSigName = none := by
      simp [headerGet, hfind]
    simp [handle_request, hnone]

/-- Witness for C10: a signature header whose value is the single byte 255
(not valid UTF-8) is treated exactly like a missing header. -/
theorem receiver_nonutf8_signature_witness :
    handle_request hmacDummy (some [107]) true "POST".data "/".data
      [(xSigName, [255])] [] =
      ⟨401, "Missing signature".data, false, 0, none⟩ ∧
    handle_request hmacDummy (some [107]) true "POST".data "/".data
      ([(xSigName, [255])].filter (fun p => !(p.1 == xSigName))) [] =
      ⟨401, "Missing signature".data, false, 0, none⟩ :=
  receiver_nonutf8_signature hmacDummy [107] true "POST".data "/".data
    [(xSigName, [255])] [] [255] (by decide) (by decide)

/-! ## Claim C5: signature material in the published payload -/

/-- C5 counterexample: a concrete request that the receiver accepts (202)
publishes a payload whose headers mapping literally contains the
`x-signature` header with its value (the 64-character signature), contrary
to the claim that no signature material is copied. -/
theorem receiver_signature_in_payload_cex :
    (handle_request hmacDummy (some [107]) true "POST".data "/".data
        [(xSigName, List.replicate 64 48)] []).published =
      some ⟨"POST".data, ['/'], [(xSigName, List.replicate 64 '0')], [], none⟩ ∧
    (handle_request hmacDummy (some [107]) true "POST".data "/".data
        [(xSigName, List.replicate 64 48)] []).status = 202 := by
  constructor <;> decide

/-- C5 (amended): whenever an accepted request carries `x-signature`
headers and `sig` is the last `to_str`-convertible `x-signature` value in
iteration order (the value the HashMap collect retains for that name), the
published payload's headers mapping maps `x-signature` to `sig` —
signature material is copied into the payload. -/
theorem receiver_copies_signature_header (hm : List Nat → List Nat → List Nat)
    (s : List Nat) (pubOk : Bool) (method reqPath : List Char)
    (hs : List (List Char × List Nat)) (body : List Nat) (sig : List Char)
    (hsig : lastLookup (headersSeq hs) xSigName = some sig)
    (hacc : sigCheckPasses hm (some s) hs body) :
    ∃ p, (handle_request hm (some s) pubOk method reqPath hs body).published =
        some p ∧ lookupKV p.headers xSigName = some sig := by
  obtain ⟨sg, hbind, hval⟩ := hacc
  refine ⟨buildPayload method hs body, ?_, ?_⟩
  · cases pubOk <;> simp [handle_request, hbind, hval, publishStep]
  · show lookupKV (headersToMap hs) xSigName = some sig
    unfold headersToMap
    rw [lookupKV_foldl_insert, hsig]

/-- Witness for C5 (amended) on the concrete accepted request of the
counterexample. -/
theorem receiver_copies_signature_header_witness :
    ∃ p, (handle_request hmacDummy (some [107]) true "POST".data "/".data
        [(xSigName, List.replicate 64 48)] []).published = some p ∧
      lookupKV p.headers xSigName = some (List.replicate 64 '0') :=
  receiver_copies_signature_header hmacDummy [107] true "POST".data "/".data
    [(xSigName, List.replicate 64 48)] [] (List.replicate 64 '0')
    (by decide) (by exact ⟨List.replicate 64 '0', by decide, by decide⟩)

/-! ## Claim C6: contents of the published payload -/

/-- C6 counterexample: a request arriving on the configured path "/webhook"
is published with payload path "/" — the handler hardcodes "/" (see the
source comment: axum does not provide the path in the handler), so the
payload does not contain the request's path. -/
theorem receiver_payload_path_cex :
    (handle_request hmacDummy none true "POST".data "/webhook".data []
        [97]).published = some ⟨"POST".data, ['/'], [], ['a'], none⟩ ∧
    (['/'] : List Char) ≠ "/webhook".data := by
  constructor <;> decide

/-- C6 (amended): for every request that reaches the publish phase, the
published payload carries the method string, the literal path "/"
regardless of the request's path, the mapping of convertible headers
(repeated names collapsed to the last convertible value by the HashMap
collect), and the lossily UTF-8 decoded body. -/
theorem receiver_payload_contents (hm : List Nat → List Nat → List Nat)
    (secret : Option (List Nat)) (pubOk : Bool) (method reqPath : List Char)
    (hs : List (List Char × List Nat)) (body : List Nat)
    (hacc : sigCheckPasses hm secret hs body) :
    (handle_request hm secret pubOk method reqPath hs body).published =
      some ⟨method, ['/'], headersToMap hs, utf8Lossy body, none⟩ := by
  cases secret with
  | none => cases pubOk <;> simp [handle_request, publishStep, buildPayload]
  | some s =>
    obtain ⟨sig, hbind, hval⟩ := hacc
    cases pubOk <;>
      simp [handle_request, hbind, hval, publishStep, buildPayload]

/-- Witness for C6 (amended) on a concrete request. -/
theorem receiver_payload_contents_witness :
    (handle_request hmacDummy none true "POST".data "/webhook".data []
        [97]).published =
      some ⟨"POST".data, ['/'], headersToMap [], utf8Lossy [97], none⟩ :=
  receiver_payload_contents hmacDummy none true "POST".data "/webhook".data
    [] [97] True.intro

/-! ## Claim C4: target resolution of the dispatcher -/

theorem dropWhile_slash_replicate (k : Nat) (l : List Char) :
    List.dropWhile (fun c => c == '/') (List.replicate k '/' ++ l) =
      List.dropWhile (fun c => c == '/') l := by
  induction k with
  | zero => simp
  | succ k ih =>
    rw [List.replicate_succ, List.cons_append, List.dropWhile_cons]
    simp [ih]

theorem trimEndSlashes_append_replicate (s : List Char) (k : Nat) :
    trimEndSlashes (s ++ List.replicate k '/') = trimEndSlashes s := by
  unfold trimEndSlashes
  rw [List.reverse_append, List.reverse_replicate, dropWhile_slash_replicate]

/-- C4: target resolution order of `extract_url`: a string `url` field is
used verbatim; otherwise a string `path` field is appended to the base URL
with trailing slashes stripped (or used verbatim without a base); with
neither, resolution fails (MissingTarget).  In particular a payload with
path "/foo" and base "http://x" with any number of trailing slashes
resolves to "http://x/foo". -/
theorem extract_url_resolution :
    (∀ payload base u, payload.get ['u', 'r', 'l'] = some (JValue.str u) →
      extract_url payload base = some u) ∧
    (∀ payload b p, (payload.get ['u', 'r', 'l']).bind JValue.asStr = none →
      payload.get ['p', 'a', 't', 'h'] = some (JValue.str p) →
      extract_url payload (some b) = some (trimEndSlashes b ++ p)) ∧
    (∀ payload p, (payload.get ['u', 'r', 'l']).bind JValue.asStr = none →
      payload.get ['p', 'a', 't', 'h'] = some (JValue.str p) →
      extract_url payload none = some p) ∧
    (∀ payload base, (payload.get ['u', 'r', 'l']).bind JValue.asStr = none →
      (payload.get ['p', 'a', 't', 'h']).bind JValue.asStr = none →
      extract_url payload base = none) ∧
    (∀ k, extract_url
        (JValue.obj [(['p', 'a', 't', 'h'], JValue.str "/foo".data)])
        (some ("http://x".data ++ List.replicate k '/')) =
        some "http://x/foo".data) := by
  refine ⟨?_, ?_, ?_, ?_, ?_⟩
  · intro payload base u hget
    have hu : (payload.get ['u', 'r', 'l']).bind JValue.asStr = some u := by
      rw [hget]; rfl
    simp only [extract_url, hu]
  · intro payload b p hu hp
    have hp' : (payload.get ['p', 'a', 't', 'h']).bind JValue.asStr
        = some p := by
      rw [hp]; rfl
    simp only [extract_url, hu, hp']
  · intro payload p hu hp
    have hp' : (payload.get ['p', 'a', 't', 'h']).bind JValue.asStr
        = some p := by
      rw [hp]; rfl
    simp only [extract_url, hu, hp']
  · intro payload base hu hp
    simp only [extract_url, hu, hp]
  · intro k
    have h1 : extract_url
        (JValue.obj [(['p', 'a', 't', 'h'], JValue.str "/foo".data)])
        (some ("http://x".data ++ List.replicate k '/')) =
        some (trimEndSlashes ("http://x".data ++ List.replicate k '/') ++
          "/foo".data) := rfl
    rw [h1, trimEndSlashes_append_replicate]
    decide

/-- Witness for C4 on concrete payloads, including base "http://x///". -/
theorem extract_url_resolution_witness :
    extract_url (JValue.obj [(['u', 'r', 'l'], JValue.str "http://a".data)])
      none = some "http://a".data ∧
    extract_url (JValue.obj [(['p', 'a', 't', 'h'], JValue.str "/x".data)])
      none = some "/x".data ∧
    extract_url (JValue.obj []) none = none ∧
    extract_url (JValue.obj [(['p', 'a', 't', 'h'], JValue.str "/foo".data)])
      (some ("http://x".data ++ List.replicate 3 '/')) =
      some "http://x/foo".data := by
  refine ⟨?_, ?_, ?_, ?_⟩
  · exact extract_url_resolution.1 _ none _ rfl
  · exact extract_url_resolution.2.2.1 _ _ rfl rfl
  · exact extract_url_resolution.2.2.2.1 _ none rfl rfl
  · exact extract_url_resolution.2.2.2.2 3

/-! ## Claim C7: body resolution of the dispatcher -/

/-- C7 counterexample: a payload with `body: null` has a present `body`
field, the resolved body is null, and `make_request` attaches no body at
all — not the entire payload as the claim's "otherwise" branch states. -/
theorem body_resolution_null_cex :
    (JValue.obj [(['b', 'o', 'd', 'y'], JValue.null)]).get
      ['b', 'o', 'd', 'y'] = some JValue.null ∧
    sentBody (JValue.obj [(['b', 'o', 'd', 'y'], JValue.null)]) = none ∧
    (none : Option JValue) ≠
      some (JValue.obj [(['b', 'o', 'd', 'y'], JValue.null)]) :=
  ⟨rfl, rfl, fun h => Option.noConfusion h⟩

/-- C7 (amended): the outbound body is `payload.body` when that field is
present and non-null; when the field is present and null, no body is
attached; when the field is absent, the entire payload is attached unless
the payload itself is null, in which case no body is attached. -/
theorem body_resolution (payload : JValue) :
    (∀ b, payload.get ['b', 'o', 'd', 'y'] = some b → b.isNull = false →
      sentBody payload = some b) ∧
    (payload.get ['b', 'o', 'd', 'y'] = some JValue.null →
      sentBody payload = none) ∧
    (payload.get ['b', 'o', 'd', 'y'] = none → payload.isNull = false →
      sentBody payload = some payload) ∧
    (payload.get ['b', 'o', 'd', 'y'] = none → payload.isNull = true →
      sentBody payload = none) := by
  refine ⟨?_, ?_, ?_, ?_⟩
  · intro b hget hnn
    simp [sentBody, resolve_body, hget, hnn]
  · intro hget
    simp [sentBody, resolve_body, hget, JValue.isNull]
  · intro hget hnn
    simp [sentBody, resolve_body, hget, hnn]
  · intro hget hn
    simp [sentBody, resolve_body, hget, hn]

/-- Witness for C7 (amended): a present non-null body is sent as-is, and a
payload without a `body` field is sent whole. -/
theorem body_resolution_witness :
    sentBody (JValue.obj [(['b', 'o', 'd', 'y'], JValue.str ['x'])]) =
      some (JValue.str ['x']) ∧
    sentBody (JValue.obj [(['u', 'r', 'l'], JValue.str ['u'])]) =
      some (JValue.obj [(['u', 'r', 'l'], JValue.str ['u'])]) := by
  constructor
  · exact (body_resolution _).1 (JValue.str ['x']) rfl rfl
  · exact (body_resolution _).2.2.1 rfl rfl
